import Mathlib

/-
Verification of the job aggregation pipeline of github-connect-hub.

The definitions below are a shallow embedding of the TypeScript code in
`supabase/functions/scrape-jobs/index.ts` and
`supabase/functions/live-jobs-feed/index.ts`:

* timestamps (`Date.getTime()` values) are modelled as `Int` milliseconds
  since the epoch; `Date.now()` becomes an explicit `now : Int` parameter;
* the quota arithmetic (`Math.floor(totalJobs * 0.7)` etc.) is modelled in
  IEEE-754 binary64: the literal denotes its nearest double, the product
  with the (exactly representable) integer length is rounded to 53
  significant bits with round-to-nearest ties-to-even, and `Math.floor` of
  the result is exact;
* `Array.prototype.sort` with a numeric comparator is a stable sort, which
  `List.insertionSort` implements;
* fallible I/O (fetch) is modelled by an explicit `FetchOutcome` value.
-/

namespace GithubConnectHub

/-- Canonical job listing record (interface `JobListing` in
`scrape-jobs/index.ts`).  `posted_at` is the millisecond timestamp denoted by
the ISO string stored in the source's `posted_at` field. -/
structure JobListing where
  id : String
  title : String
  company : String
  company_tier : Nat
  location : String
  salary_range : Option String
  url : String
  posted_delta : String
  posted_at : Int
  snippet : String
  requirements : List String
  source : String
  match_score : Int
  deriving DecidableEq, Repr

/-! ### Deduplication by URL (`uniqueJobs`, scrape-jobs/index.ts lines 408-414)

The source filters `allJobs` keeping a `seenUrls` set: a job survives iff its
url is not in the set, and surviving urls are added. -/

/-- One step of the `allJobs.filter` loop, with the current `seenUrls` set
(modelled as a list). -/
def dedupAux : List JobListing → List String → List JobListing
  | [], _ => []
  | j :: rest, seen =>
    if j.url ∈ seen then dedupAux rest seen
    else j :: dedupAux rest (j.url :: seen)

/-- `uniqueJobs` as computed by the aggregator: filter with an initially empty
seen-set. -/
def uniqueJobs (allJobs : List JobListing) : List JobListing :=
  dedupAux allJobs []

theorem dedupAux_sublist (l : List JobListing) (seen : List String) :
    List.Sublist (dedupAux l seen) l := by
  induction l generalizing seen with
  | nil => simp [dedupAux]
  | cons j rest ih =>
    simp only [dedupAux]
    by_cases h : j.url ∈ seen
    · simp only [h, if_true]
      exact (ih seen).trans (List.sublist_cons_self j rest)
    · simp only [h, if_false]
      exact (ih (j.url :: seen)).cons₂ j

theorem dedupAux_url_not_seen (l : List JobListing) (seen : List String)
    (j : JobListing) (hj : j ∈ dedupAux l seen) : j.url ∉ seen := by
  induction l generalizing seen with
  | nil => simp [dedupAux] at hj
  | cons a rest ih =>
    simp only [dedupAux] at hj
    by_cases h : a.url ∈ seen
    · simp only [h, if_true] at hj
      exact ih seen hj
    · simp only [h, if_false, List.mem_cons] at hj
      rcases hj with rfl | hj
      · exact h
      · intro hmem
        exact ih (a.url :: seen) hj (List.mem_cons_of_mem _ hmem)

theorem dedupAux_mem_url (l : List JobListing) (seen : List String) (u : String) :
    u ∈ (dedupAux l seen).map (fun j => j.url) ↔
      u ∈ l.map (fun j => j.url) ∧ u ∉ seen := by
  induction l generalizing seen with
  | nil => simp [dedupAux]
  | cons a rest ih =>
    simp only [dedupAux]
    by_cases h : a.url ∈ seen
    · simp only [h, if_true, ih, List.map_cons, List.mem_cons]
      constructor
      · rintro ⟨hmem, hns⟩
        exact ⟨Or.inr hmem, hns⟩
      · rintro ⟨hor, hns⟩
        rcases hor with rfl | hmem
        · exact absurd h hns
        · exact ⟨hmem, hns⟩
    · simp only [h, if_false, List.map_cons, List.mem_cons, ih, List.mem_cons]
      constructor
      · rintro (rfl | ⟨hmem, hns⟩)
        · exact ⟨Or.inl rfl, h⟩
        · exact ⟨Or.inr hmem, fun hs => hns (Or.inr hs)⟩
      · rintro ⟨rfl | hmem, hns⟩
        · exact Or.inl rfl
        · by_cases hu : u = a.url
          · exact Or.inl hu
          · exact Or.inr ⟨hmem, fun hs => hs.elim hu hns⟩

theorem dedupAux_nodup_urls (l : List JobListing) (seen : List String) :
    ((dedupAux l seen).map (fun j => j.url)).Nodup := by
  induction l generalizing seen with
  | nil => simp [dedupAux]
  | cons a rest ih =>
    simp only [dedupAux]
    by_cases h : a.url ∈ seen
    · simp only [h, if_true]
      exact ih seen
    · simp only [h, if_false, List.map_cons, List.nodup_cons]
      refine ⟨fun hmem => ?_, ih (a.url :: seen)⟩
      exact ((dedupAux_mem_url rest (a.url :: seen) a.url).1 hmem).2 (List.mem_cons_self _ _)

theorem dedupAux_first_occurrence (l : List JobListing) (seen : List String)
    (j : JobListing) (hj : j ∈ dedupAux l seen) :
    l.find? (fun x => x.url == j.url) = some j := by
  induction l generalizing seen with
  | nil => simp [dedupAux] at hj
  | cons a rest ih =>
    simp only [dedupAux] at hj
    by_cases h : a.url ∈ seen
    · simp only [h, if_true] at hj
      have hne : (a.url == j.url) = false := by
        have := dedupAux_url_not_seen rest seen j hj
        simp only [beq_eq_false_iff_ne, ne_eq]
        intro heq
        exact this (heq ▸ h)
      rw [List.find?_cons_of_neg _ (by simp [hne]), ih seen hj]
    · simp only [h, if_false, List.mem_cons] at hj
      rcases hj with rfl | hj
      · rw [List.find?_cons_of_pos _ (by simp)]
      · have hnotin := dedupAux_url_not_seen rest (a.url :: seen) j hj
        have hne : (a.url == j.url) = false := by
          simp only [beq_eq_false_iff_ne, ne_eq]
          intro heq
          exact hnotin (heq ▸ List.mem_cons_self _ _)
        rw [List.find?_cons_of_neg _ (by simp [hne]), ih (a.url :: seen) hj]

/-- C2.  Deduplication: the deduplicated output is a subsequence of the input
(so the relative order of survivors is the submission order), its urls are
pairwise distinct, every input url is represented, and each survivor is
exactly the first-encountered listing bearing its url. -/
theorem dedup_first_occurrence_wins (allJobs : List JobListing) :
    List.Sublist (uniqueJobs allJobs) allJobs ∧
    ((uniqueJobs allJobs).map (fun j => j.url)).Nodup ∧
    (∀ j ∈ allJobs, ∃ j' ∈ uniqueJobs allJobs, j'.url = j.url) ∧
    (∀ j' ∈ uniqueJobs allJobs,
      allJobs.find? (fun x => x.url == j'.url) = some j') := by
  refine ⟨dedupAux_sublist allJobs [], dedupAux_nodup_urls allJobs [], ?_, ?_⟩
  · intro j hj
    have hmem : j.url ∈ (uniqueJobs allJobs).map (fun x => x.url) := by
      rw [uniqueJobs, dedupAux_mem_url]
      exact ⟨List.mem_map_of_mem _ hj, List.not_mem_nil _⟩
    rcases List.mem_map.1 hmem with ⟨j', hj', hurl⟩
    exact ⟨j', hj', hurl⟩
  · intro j' hj'
    exact dedupAux_first_occurrence allJobs [] j' hj'

/-! ### Relative time buckets (`getTimeDelta`, scrape-jobs/index.ts lines 240-255)

`Math.floor` of a real division is `Int.fdiv` on millisecond integers. -/

/-- `getTimeDelta` computes the human-readable recency string from the posted
timestamp, bucketing by minutes, hours, days and weeks. -/
def getTimeDelta (now posted : Int) : String :=
  let diffMs := now - posted
  let minutes := Int.fdiv diffMs 60000
  if minutes < 60 then toString minutes ++ " min ago"
  else
    let hours := Int.fdiv minutes 60
    if hours < 24 then toString hours ++ "h ago"
    else
      let days := Int.fdiv hours 24
      if days < 7 then toString days ++ "d ago"
      else toString (Int.fdiv days 7) ++ "w ago"

theorem fdiv_pos_divisor (a b : Int) (hb : 0 ≤ b) : Int.fdiv a b = a / b :=
  Int.fdiv_eq_ediv a hb

/-- C9.  Recency buckets: for a past timestamp the delta string is
"N min ago" under 60 minutes, "Nh ago" under 24 hours, "Nd ago" under 7 days
and "Nw ago" otherwise, with N the floor of the corresponding unit of the
elapsed milliseconds. -/
theorem getTimeDelta_buckets (now posted : Int) (hpast : posted ≤ now) :
    (now - posted < 3600000 →
      getTimeDelta now posted = toString (Int.fdiv (now - posted) 60000) ++ " min ago") ∧
    (3600000 ≤ now - posted → now - posted < 86400000 →
      getTimeDelta now posted = toString (Int.fdiv (now - posted) 3600000) ++ "h ago") ∧
    (86400000 ≤ now - posted → now - posted < 604800000 →
      getTimeDelta now posted = toString (Int.fdiv (now - posted) 86400000) ++ "d ago") ∧
    (604800000 ≤ now - posted →
      getTimeDelta now posted = toString (Int.fdiv (now - posted) 604800000) ++ "w ago") := by
  have hnn : (0 : Int) ≤ now - posted := by omega
  rw [getTimeDelta]
  have e1 : ∀ a : Int, a.fdiv 60000 = a / 60000 := fun a => fdiv_pos_divisor a 60000 (by norm_num)
  have e2 : ∀ a : Int, a.fdiv 60 = a / 60 := fun a => fdiv_pos_divisor a 60 (by norm_num)
  have e3 : ∀ a : Int, a.fdiv 24 = a / 24 := fun a => fdiv_pos_divisor a 24 (by norm_num)
  have e4 : ∀ a : Int, a.fdiv 7 = a / 7 := fun a => fdiv_pos_divisor a 7 (by norm_num)
  have e5 : ∀ a : Int, a.fdiv 3600000 = a / 3600000 := fun a => fdiv_pos_divisor a 3600000 (by norm_num)
  have e6 : ∀ a : Int, a.fdiv 86400000 = a / 86400000 := fun a => fdiv_pos_divisor a 86400000 (by norm_num)
  have e7 : ∀ a : Int, a.fdiv 604800000 = a / 604800000 :=
    fun a => fdiv_pos_divisor a 604800000 (by norm_num)
  simp only [e1, e2, e3, e4, e5, e6, e7]
  refine ⟨?_, ?_, ?_, ?_⟩
  · intro hlt
    rw [if_pos (by omega)]
  · intro hge hlt
    rw [if_neg (by omega), if_pos (by omega)]
    have he : (now - posted) / 60000 / 60 = (now - posted) / 3600000 := by omega
    rw [he]
  · intro hge hlt
    rw [if_neg (by omega), if_neg (by omega), if_pos (by omega)]
    have he : (now - posted) / 60000 / 60 / 24 = (now - posted) / 86400000 := by omega
    rw [he]
  · intro hge
    by_cases hcap : now - posted < 604800000
    · omega
    · rw [if_neg (by omega), if_neg (by omega), if_neg (by omega)]
      have he : (now - posted) / 60000 / 60 / 24 / 7 = (now - posted) / 604800000 := by
        omega
      rw [he]

/-- C9 witness.  An item posted 5 minutes ago yields "5 min ago", 25 hours ago
yields "1d ago", 10 days ago yields "1w ago". -/
theorem getTimeDelta_buckets_witness :
    getTimeDelta 300000 0 = "5 min ago" ∧
    getTimeDelta 90000000 0 = "1d ago" ∧
    getTimeDelta 864000000 0 = "1w ago" := by
  refine ⟨?_, ?_, ?_⟩
  · have h := (getTimeDelta_buckets 300000 0 (by norm_num)).1 (by norm_num)
    simpa using h
  · have h := ((getTimeDelta_buckets 90000000 0 (by norm_num)).2.2.1 (by norm_num) (by norm_num))
    simpa using h
  · have h := ((getTimeDelta_buckets 864000000 0 (by norm_num)).2.2.2 (by norm_num))
    simpa using h

/-! ### Scoring (`calculateScore`, scrape-jobs/index.ts lines 273-304) -/

/-- ASCII lower-casing, character by character; models
`String.prototype.toLowerCase` on the ASCII data this pipeline handles
(`String.toLower` in core is not kernel-reducible, being defined by
well-founded recursion). -/
def toLowerStr (s : String) : String :=
  String.mk (s.toList.map Char.toLower)

/-- Contiguous-substring test on character lists; `containsSub pat s` models
JS `s.includes(pat)`. -/
def containsSub (pat : List Char) : List Char → Bool
  | [] => pat.isEmpty
  | c :: rest => pat.isPrefixOf (c :: rest) || containsSub pat rest

/-- `strIncludes s pat` models the JS expression `s.includes(pat)`. -/
def strIncludes (s pat : String) : Bool :=
  containsSub pat.toList s.toList

/-- The lower-cased searchable text of a listing:
`` `${job.title} ${job.snippet} ${job.requirements.join(' ')}`.toLowerCase() ``. -/
def jobTextOf (j : JobListing) : String :=
  toLowerStr (j.title ++ " " ++ j.snippet ++ " " ++ String.intercalate " " j.requirements)

/-- Tier bonus: +20 for tier 1, +10 for tier 2, +5 otherwise. -/
def tierBonus (t : Nat) : Int :=
  if t == 1 then 20 else if t == 2 then 10 else 5

/-- One iteration of the keyword loop: skip falsy (empty) keywords, add 5 for
a case-insensitive match. -/
def kwStep (text : String) (acc : Int) (kw : String) : Int :=
  if kw = "" then acc
  else if strIncludes text (toLowerStr kw) then acc + 5 else acc

/-- Total raw keyword score before the +30 cap. -/
def keywordScore (text : String) (keywords : List String) : Int :=
  keywords.foldl (kwStep text) 0

/-- Location bonus: +15 for a priority location substring, else +5 for a
caller-supplied location substring, else 0. -/
def locationBonus (jobLocLower : String) (locations : List String) : Int :=
  if (["dublin", "ireland", "remote"].any fun loc => strIncludes jobLocLower loc) then 15
  else if (locations.any fun loc => strIncludes jobLocLower (toLowerStr loc)) then 5
  else 0

/-- Recency bonus: +10 when posted within the last hour, +5 within the last
24 hours, else 0. -/
def recencyBonus (now postedAt : Int) : Int :=
  if now - postedAt < 3600000 then 10
  else if now - postedAt < 86400000 then 5
  else 0

/-- `calculateScore`: base 50, tier bonus, keyword bonus capped at +30,
location bonus, recency bonus, clamped to at most 100. -/
def calculateScore (now : Int) (j : JobListing) (keywords locations : List String) : Int :=
  min 100 (50 + tierBonus j.company_tier
    + min 30 (keywordScore (jobTextOf j) keywords)
    + locationBonus (toLowerStr j.location) locations
    + recencyBonus now j.posted_at)

theorem kwStep_ge (text : String) (acc : Int) (kw : String) : acc ≤ kwStep text acc kw := by
  unfold kwStep
  split
  · exact le_refl acc
  · split
    · omega
    · exact le_refl acc

theorem foldl_kwStep_ge (text : String) :
    ∀ (ks : List String) (acc : Int), acc ≤ ks.foldl (kwStep text) acc
  | [], acc => le_refl acc
  | kw :: ks, acc =>
    le_trans (kwStep_ge text acc kw) (foldl_kwStep_ge text ks (kwStep text acc kw))

theorem keywordScore_nonneg (text : String) (ks : List String) : 0 ≤ keywordScore text ks :=
  foldl_kwStep_ge text ks 0

theorem tierBonus_bounds (t : Nat) : 5 ≤ tierBonus t ∧ tierBonus t ≤ 20 := by
  unfold tierBonus
  split
  · omega
  · split
    · omega
    · omega

theorem locationBonus_bounds (s : String) (locs : List String) :
    0 ≤ locationBonus s locs ∧ locationBonus s locs ≤ 15 := by
  unfold locationBonus
  split
  · omega
  · split
    · omega
    · omega

theorem recencyBonus_bounds (now postedAt : Int) :
    0 ≤ recencyBonus now postedAt ∧ recencyBonus now postedAt ≤ 10 := by
  unfold recencyBonus
  split
  · omega
  · split
    · omega
    · omega

/-- C3.  Score bounds: the score is always in [0, 100], and it equals the
both-ends-clamped sum of base 50, tier bonus, keyword bonus capped at +30,
location bonus and recency bonus (the lower clamp is vacuous because the sum
is at least 50). -/
theorem calculateScore_bounds (now : Int) (j : JobListing) (keywords locations : List String) :
    0 ≤ calculateScore now j keywords locations ∧
    calculateScore now j keywords locations ≤ 100 ∧
    calculateScore now j keywords locations =
      max 0 (min 100 (50 + tierBonus j.company_tier
        + min 30 (keywordScore (jobTextOf j) keywords)
        + locationBonus (toLowerStr j.location) locations
        + recencyBonus now j.posted_at)) := by
  have h1 := keywordScore_nonneg (jobTextOf j) keywords
  have h2 := tierBonus_bounds j.company_tier
  have h3 := locationBonus_bounds (toLowerStr j.location) locations
  have h4 := recencyBonus_bounds now j.posted_at
  unfold calculateScore
  omega

/-- Record update raising or lowering only the company tier. -/
def setTier (j : JobListing) (t : Nat) : JobListing :=
  { j with company_tier := t }

theorem jobTextOf_setTier (j : JobListing) (t : Nat) : jobTextOf (setTier j t) = jobTextOf j := rfl

theorem setTier_company_tier (j : JobListing) (t : Nat) : (setTier j t).company_tier = t := rfl

theorem setTier_location (j : JobListing) (t : Nat) : (setTier j t).location = j.location := rfl

theorem setTier_posted_at (j : JobListing) (t : Nat) : (setTier j t).posted_at = j.posted_at := rfl

/-- C4.  Score monotonicity: raising the tier from 3 to 2 or from 2 to 1 with
all other inputs fixed never decreases the score, and appending a non-empty
keyword that matches the listing's text never decreases the score. -/
theorem calculateScore_monotone (now : Int) (j : JobListing) (keywords locations : List String) :
    calculateScore now (setTier j 3) keywords locations ≤
      calculateScore now (setTier j 2) keywords locations ∧
    calculateScore now (setTier j 2) keywords locations ≤
      calculateScore now (setTier j 1) keywords locations ∧
    (∀ kw : String, kw ≠ "" → strIncludes (jobTextOf j) (toLowerStr kw) = true →
      calculateScore now j keywords locations ≤
        calculateScore now j (keywords ++ [kw]) locations) := by
  have t3 : tierBonus 3 = 5 := rfl
  have t2 : tierBonus 2 = 10 := rfl
  have t1 : tierBonus 1 = 20 := rfl
  refine ⟨?_, ?_, ?_⟩
  · simp only [calculateScore, jobTextOf_setTier, setTier_company_tier, setTier_location,
      setTier_posted_at, t3, t2]
    omega
  · simp only [calculateScore, jobTextOf_setTier, setTier_company_tier, setTier_location,
      setTier_posted_at, t2, t1]
    omega
  · intro kw hkw hmatch
    have happ : keywordScore (jobTextOf j) (keywords ++ [kw]) =
        keywordScore (jobTextOf j) keywords + 5 := by
      unfold keywordScore
      rw [List.foldl_append]
      simp only [List.foldl_cons, List.foldl_nil, kwStep, if_neg hkw, hmatch,
        eq_self_iff_true, if_true]
    simp only [calculateScore, happ]
    omega

/-- A concrete listing used to instantiate hypothesised theorems. -/
def sampleJob : JobListing :=
  { id := "gh_stripe_1"
    title := "AI Engineer"
    company := "Stripe"
    company_tier := 1
    location := "Dublin"
    salary_range := none
    url := "https://boards.greenhouse.io/stripe/jobs/1"
    posted_delta := "5 min ago"
    posted_at := 0
    snippet := "Build with Python and Kubernetes"
    requirements := ["Python", "Kubernetes"]
    source := "greenhouse"
    match_score := 0 }

/-- C4 witness.  The monotonicity theorem applied at a concrete listing with
the matching keyword "python". -/
theorem calculateScore_monotone_witness :
    ("python" ≠ "" ∧ strIncludes (jobTextOf sampleJob) (toLowerStr "python") = true) ∧
    calculateScore 0 sampleJob ["AI"] ["Dublin"] ≤
      calculateScore 0 sampleJob (["AI"] ++ ["python"]) ["Dublin"] := by
  refine ⟨⟨by decide, by decide⟩, ?_⟩
  exact (calculateScore_monotone 0 sampleJob ["AI"] ["Dublin"]).2.2 "python" (by decide) (by decide)

/-! ### Tier-based mixing (`mixJobsByTier`, scrape-jobs/index.ts lines 307-341)

`Array.prototype.sort` with the comparator `(a, b) => b.match_score - a.match_score`
is a stable descending sort by score, which `List.insertionSort` with the
"score at least" relation implements. -/

/-- The comparator relation of `(a, b) => b.match_score - a.match_score`:
`a` sorts no later than `b` iff `a`'s score is at least `b`'s. -/
def scoreGE (a b : JobListing) : Prop := b.match_score ≤ a.match_score

instance : DecidableRel scoreGE := fun _ _ => Int.decLe _ _

instance : IsTotal JobListing scoreGE := ⟨fun a b => le_total b.match_score a.match_score⟩

instance : IsTrans JobListing scoreGE := ⟨fun _ _ _ h1 h2 => le_trans h2 h1⟩

/-- The comparator relation of
`(a, b) => new Date(b.posted_at).getTime() - new Date(a.posted_at).getTime()`. -/
def postedGE (a b : JobListing) : Prop := b.posted_at ≤ a.posted_at

instance : DecidableRel postedGE := fun _ _ => Int.decLe _ _

instance : IsTotal JobListing postedGE := ⟨fun a b => le_total b.posted_at a.posted_at⟩

instance : IsTrans JobListing postedGE := ⟨fun _ _ _ h1 h2 => le_trans h2 h1⟩

def sortByScoreDesc (l : List JobListing) : List JobListing := l.insertionSort scoreGE

def sortByPostedDesc (l : List JobListing) : List JobListing := l.insertionSort postedGE

/-!
#### Binary64 quota arithmetic

`Math.floor(totalJobs * 0.7)` runs in IEEE-754 binary64: the literal 0.7
denotes the nearest double, `6305039478318694 / 2^53`; the product with the
exactly-representable integer `totalJobs` is rounded to 53 significant bits,
round-to-nearest ties-to-even; `Math.floor` of the result is exact.  The
exact product is the integer `n * 6305039478318694` over `2^53`, and the
binade spacing scales with the numerator's width, so rounding the product to
a double is exactly rounding its integer numerator to 53 significant bits.
Likewise 0.2 is `7205759403792794 / 2^55` and 0.1 is `7205759403792794 /
2^56`.  This differs from the exact `floor(0.7*n)` at n = 90, 170, 180, ...
-/

/-- Number of binary digits of `a`, by fuel-driven structural recursion so
that it reduces in the kernel (fuel `a` always suffices). -/
def bitLenFuel : Nat → Nat → Nat
  | 0, _ => 0
  | fuel + 1, a => if a = 0 then 0 else bitLenFuel fuel (a / 2) + 1

def bitLen (a : Nat) : Nat := bitLenFuel a a

/-- Round the integer `a` to 53 significant binary digits with
round-to-nearest ties-to-even: the mantissa rounding of a binary64 product
whose exact value is `a / 2^shift`. -/
def roundSig53 (a : Nat) : Nat :=
  let s := bitLen (a / 2 ^ 53)
  if s = 0 then a
  else
    let q := a / 2 ^ s
    let r := a % 2 ^ s
    let half := 2 ^ (s - 1)
    if half < r ∨ (r = half ∧ q % 2 = 1) then (q + 1) * 2 ^ s
    else q * 2 ^ s

/-- `Math.floor(n * d)` in binary64, where `d` is the double `m / 2^shift`:
round the exact numerator `n*m` to 53 significant bits, then floor the
scaled result. -/
def jsMulFloor (m shift n : Nat) : Nat :=
  roundSig53 (n * m) / 2 ^ shift

/-- `Math.floor(totalJobs * 0.7)` in binary64
(0.7 is the double `6305039478318694 / 2^53`). -/
def tier1Count (n : Nat) : Nat := jsMulFloor 6305039478318694 53 n

/-- `Math.floor(totalJobs * 0.2)` in binary64
(0.2 is the double `7205759403792794 / 2^55`). -/
def tier2Count (n : Nat) : Nat := jsMulFloor 7205759403792794 55 n

/-- `Math.floor(totalJobs * 0.1)` in binary64
(0.1 is the double `7205759403792794 / 2^56`). -/
def tier3Count (n : Nat) : Nat := jsMulFloor 7205759403792794 56 n

/-- `jobs.filter(j => j.company_tier === t)`. -/
def tierJobs (t : Nat) (jobs : List JobListing) : List JobListing :=
  jobs.filter (fun j => j.company_tier == t)

/-- The "mixed" collection after quota selection: the top-scored
`tier1Count` tier-1 listings, then the top `tier2Count` tier-2 ones, then the
top `tier3Count` tier-3 ones. -/
def mixPhase (jobs : List JobListing) : List JobListing :=
  (sortByScoreDesc (tierJobs 1 jobs)).take (tier1Count jobs.length)
    ++ (sortByScoreDesc (tierJobs 2 jobs)).take (tier2Count jobs.length)
    ++ (sortByScoreDesc (tierJobs 3 jobs)).take (tier3Count jobs.length)

/-- The 24-hour recency cutoff `Date.now() - 24 * 60 * 60 * 1000`. -/
def recentCutoff (now : Int) : Int := now - 24 * 60 * 60 * 1000

/-- `mixJobsByTier`: quota-mix by tier, then re-split by the 24-hour cutoff,
sort the recent part newest-first and append the older part unchanged. -/
def mixJobsByTier (now : Int) (jobs : List JobListing) : List JobListing :=
  let mixed := mixPhase jobs
  let recentJobs := mixed.filter (fun j => recentCutoff now < j.posted_at)
  let olderJobs := mixed.filter (fun j => j.posted_at ≤ recentCutoff now)
  sortByPostedDesc recentJobs ++ olderJobs

theorem length_sortByScoreDesc (l : List JobListing) :
    (sortByScoreDesc l).length = l.length :=
  List.length_insertionSort scoreGE l

theorem length_sortByPostedDesc (l : List JobListing) :
    (sortByPostedDesc l).length = l.length :=
  List.length_insertionSort postedGE l

theorem mem_sortByScoreDesc {l : List JobListing} {j : JobListing} :
    j ∈ sortByScoreDesc l ↔ j ∈ l :=
  List.mem_insertionSort scoreGE

theorem mem_tierJobs {t : Nat} {jobs : List JobListing} {j : JobListing} :
    j ∈ tierJobs t jobs → j.company_tier = t := by
  intro hj
  have := List.of_mem_filter hj
  exact eq_of_beq this

/-- In a list sorted by a transitive relation, every element of the prefix
relates to every element of the matching suffix. -/
theorem sorted_take_drop {r : JobListing → JobListing → Prop}
    {l : List JobListing} (hs : List.Sorted r l) (k : Nat) :
    ∀ x ∈ l.take k, ∀ y ∈ l.drop k, r x y := by
  have h := hs
  rw [← List.take_append_drop k l, List.Sorted, List.pairwise_append] at h
  exact h.2.2

theorem take_sortByScoreDesc_tier {t : Nat} {jobs : List JobListing} {k : Nat}
    {j : JobListing} (hj : j ∈ (sortByScoreDesc (tierJobs t jobs)).take k) :
    j.company_tier = t :=
  mem_tierJobs (mem_sortByScoreDesc.1 (List.take_subset _ _ hj))

/-- C1 (amended: the quotas are `Math.floor(N*0.7)`, `Math.floor(N*0.2)`,
`Math.floor(N*0.1)` as binary64 computes them, which at some N — 90, 170,
180, ... — fall one below the exact `floor(0.7*N)`).  Tier-mix quota: when
every tier has at least its quota available, the mixed output has length
`tier1Count + tier2Count + tier3Count`; its first
segment consists of tier-1 listings, the next of tier-2, the last of tier-3,
each segment being the quota-length prefix of that tier's score-sorted group;
and every selected listing of a tier scores at least every unselected listing
of the same tier (no backfill from other tiers occurs). -/
theorem tier_mix_quota (jobs : List JobListing)
    (h1 : tier1Count jobs.length ≤ (tierJobs 1 jobs).length)
    (h2 : tier2Count jobs.length ≤ (tierJobs 2 jobs).length)
    (h3 : tier3Count jobs.length ≤ (tierJobs 3 jobs).length) :
    (mixPhase jobs).length =
      tier1Count jobs.length + tier2Count jobs.length + tier3Count jobs.length ∧
    (mixPhase jobs).take (tier1Count jobs.length) =
      (sortByScoreDesc (tierJobs 1 jobs)).take (tier1Count jobs.length) ∧
    ((mixPhase jobs).drop (tier1Count jobs.length)).take (tier2Count jobs.length) =
      (sortByScoreDesc (tierJobs 2 jobs)).take (tier2Count jobs.length) ∧
    ((mixPhase jobs).drop (tier1Count jobs.length)).drop (tier2Count jobs.length) =
      (sortByScoreDesc (tierJobs 3 jobs)).take (tier3Count jobs.length) ∧
    (∀ j ∈ (mixPhase jobs).take (tier1Count jobs.length), j.company_tier = 1) ∧
    (∀ j ∈ ((mixPhase jobs).drop (tier1Count jobs.length)).take (tier2Count jobs.length),
      j.company_tier = 2) ∧
    (∀ j ∈ ((mixPhase jobs).drop (tier1Count jobs.length)).drop (tier2Count jobs.length),
      j.company_tier = 3) ∧
    (∀ t ∈ [1, 2, 3], ∀ k : Nat,
      ∀ x ∈ (sortByScoreDesc (tierJobs t jobs)).take k,
      ∀ y ∈ (sortByScoreDesc (tierJobs t jobs)).drop k,
        y.match_score ≤ x.match_score) := by
  have e1 : ((sortByScoreDesc (tierJobs 1 jobs)).take (tier1Count jobs.length)).length =
      tier1Count jobs.length := by
    rw [List.length_take, length_sortByScoreDesc]
    exact min_eq_left h1
  have e2 : ((sortByScoreDesc (tierJobs 2 jobs)).take (tier2Count jobs.length)).length =
      tier2Count jobs.length := by
    rw [List.length_take, length_sortByScoreDesc]
    exact min_eq_left h2
  have e3 : ((sortByScoreDesc (tierJobs 3 jobs)).take (tier3Count jobs.length)).length =
      tier3Count jobs.length := by
    rw [List.length_take, length_sortByScoreDesc]
    exact min_eq_left h3
  have htake : (mixPhase jobs).take (tier1Count jobs.length) =
      (sortByScoreDesc (tierJobs 1 jobs)).take (tier1Count jobs.length) := by
    rw [mixPhase, List.append_assoc, List.take_left' e1]
  have hdrop : (mixPhase jobs).drop (tier1Count jobs.length) =
      (sortByScoreDesc (tierJobs 2 jobs)).take (tier2Count jobs.length)
        ++ (sortByScoreDesc (tierJobs 3 jobs)).take (tier3Count jobs.length) := by
    rw [mixPhase, List.append_assoc, List.drop_left' e1]
  have htake2 : ((mixPhase jobs).drop (tier1Count jobs.length)).take (tier2Count jobs.length) =
      (sortByScoreDesc (tierJobs 2 jobs)).take (tier2Count jobs.length) := by
    rw [hdrop, List.take_left' e2]
  have hdrop2 : ((mixPhase jobs).drop (tier1Count jobs.length)).drop (tier2Count jobs.length) =
      (sortByScoreDesc (tierJobs 3 jobs)).take (tier3Count jobs.length) := by
    rw [hdrop, List.drop_left' e2]
  refine ⟨?_, htake, htake2, hdrop2, ?_, ?_, ?_, ?_⟩
  · rw [mixPhase, List.length_append, List.length_append, e1, e2, e3]
  · intro j hj
    rw [htake] at hj
    exact take_sortByScoreDesc_tier hj
  · intro j hj
    rw [htake2] at hj
    exact take_sortByScoreDesc_tier hj
  · intro j hj
    rw [hdrop2] at hj
    exact take_sortByScoreDesc_tier hj
  · intro t _ k x hx y hy
    exact sorted_take_drop (List.sorted_insertionSort scoreGE (tierJobs t jobs)) k x hx y hy

/-- Shorthand for building concrete listings in witnesses. -/
def mkJob (u : String) (t : Nat) (s : Int) (p : Int) : JobListing :=
  { id := u
    title := u
    company := u
    company_tier := t
    location := "Remote"
    salary_range := none
    url := u
    posted_delta := ""
    posted_at := p
    snippet := ""
    requirements := []
    source := "greenhouse"
    match_score := s }

/-- Ten listings: 7 of tier 1, 2 of tier 2, 1 of tier 3, so every tier holds
at least its quota (7, 2, 1). -/
def mixSample : List JobListing :=
  [mkJob "a1" 1 90 0, mkJob "a2" 1 80 0, mkJob "a3" 1 70 0, mkJob "a4" 1 60 0,
   mkJob "a5" 1 50 0, mkJob "a6" 1 40 0, mkJob "a7" 1 30 0,
   mkJob "b1" 2 90 0, mkJob "b2" 2 80 0,
   mkJob "c1" 3 90 0]

/-- C1 witness.  The quota theorem applied to the ten-listing sample where
every tier has at least its quota available. -/
theorem tier_mix_quota_witness :
    (tier1Count mixSample.length ≤ (tierJobs 1 mixSample).length ∧
     tier2Count mixSample.length ≤ (tierJobs 2 mixSample).length ∧
     tier3Count mixSample.length ≤ (tierJobs 3 mixSample).length) ∧
    (mixPhase mixSample).length =
      tier1Count mixSample.length + tier2Count mixSample.length + tier3Count mixSample.length :=
  ⟨⟨by decide, by decide, by decide⟩,
   (tier_mix_quota mixSample (by decide) (by decide) (by decide)).1⟩

theorem length_filter_posted_split (now : Int) (l : List JobListing) :
    (l.filter (fun j => recentCutoff now < j.posted_at)).length +
      (l.filter (fun j => j.posted_at ≤ recentCutoff now)).length = l.length := by
  induction l with
  | nil => simp
  | cons j rest ih =>
    by_cases h : recentCutoff now < j.posted_at
    · have h2 : ¬ (j.posted_at ≤ recentCutoff now) := not_le.2 h
      simp [List.filter_cons, h, h2]
      omega
    · have h2 : j.posted_at ≤ recentCutoff now := not_lt.1 h
      simp [List.filter_cons, h, h2]
      omega

theorem length_mixPhase (jobs : List JobListing) :
    (mixPhase jobs).length =
      min (tier1Count jobs.length) (tierJobs 1 jobs).length
      + min (tier2Count jobs.length) (tierJobs 2 jobs).length
      + min (tier3Count jobs.length) (tierJobs 3 jobs).length := by
  rw [mixPhase, List.length_append, List.length_append, List.length_take, List.length_take,
    List.length_take, length_sortByScoreDesc, length_sortByScoreDesc, length_sortByScoreDesc]

theorem length_mixJobsByTier (now : Int) (jobs : List JobListing) :
    (mixJobsByTier now jobs).length = (mixPhase jobs).length := by
  simp only [mixJobsByTier, List.length_append, length_sortByPostedDesc]
  exact length_filter_posted_split now (mixPhase jobs)

/-- Nine listings: 7 of tier 1, 2 of tier 2, none of tier 3.  The quotas are
6, 1 and 0, all available, yet only 7 of the 9 listings survive. -/
def shortSample : List JobListing :=
  [mkJob "a1" 1 90 0, mkJob "a2" 1 80 0, mkJob "a3" 1 70 0, mkJob "a4" 1 60 0,
   mkJob "a5" 1 50 0, mkJob "a6" 1 40 0, mkJob "a7" 1 30 0,
   mkJob "b1" 2 90 0, mkJob "b2" 2 80 0]

/-- C10 (amended: the quotas inside `min(quota, available)` are the binary64
values of `Math.floor(N*0.7)` etc., which at some N fall one below the exact
floor).  Quota shortfall: the mixer's output length is always the sum over
tiers of `min(quota, available)`, and since the quotas can sum below N, the
output can be strictly shorter than the input even when every tier holds at
least its quota: for the nine-listing sample the quotas 6, 1, 0 are all
available, yet only 7 listings come out. -/
theorem tier_mix_shortfall :
    (∀ (now : Int) (jobs : List JobListing),
      (mixJobsByTier now jobs).length =
        min (tier1Count jobs.length) (tierJobs 1 jobs).length
        + min (tier2Count jobs.length) (tierJobs 2 jobs).length
        + min (tier3Count jobs.length) (tierJobs 3 jobs).length) ∧
    shortSample.length = 9 ∧
    tier1Count shortSample.length ≤ (tierJobs 1 shortSample).length ∧
    tier2Count shortSample.length ≤ (tierJobs 2 shortSample).length ∧
    tier3Count shortSample.length ≤ (tierJobs 3 shortSample).length ∧
    (mixJobsByTier 0 shortSample).length = 7 := by
  refine ⟨?_, by decide, by decide, by decide, by decide, by decide⟩
  intro now jobs
  rw [length_mixJobsByTier, length_mixPhase]

/-- Ninety listings: 63 of tier 1, 18 of tier 2, 9 of tier 3.  The exact
quotas would be 63, 18, 9, but binary64 computes `Math.floor(90 * 0.7) = 62`
(`90 * 0.7 = 62.99999999999999`). -/
def sample90 : List JobListing :=
  List.replicate 63 (mkJob "a" 1 0 0) ++ List.replicate 18 (mkJob "b" 2 0 0)
    ++ List.replicate 9 (mkJob "c" 3 0 0)

/-- C1 counterexample.  At N = 90 with 63 tier-1 listings available, the
claim's quota `floor(0.7*90) = 63` is not what the program computes: the
binary64 product `90 * 0.7` is just below 63, the quota is 62, and the mixed
set contains 62 tier-1 listings, not 63. -/
theorem tier_mix_quota_counterexample :
    sample90.length = 90 ∧
    7 * sample90.length / 10 = 63 ∧
    (tierJobs 1 sample90).length = 63 ∧
    tier1Count sample90.length = 62 ∧
    ((mixPhase sample90).filter (fun j => j.company_tier == 1)).length = 62 := by
  refine ⟨by decide, by decide, by decide, by decide, by decide⟩

/-- C10 counterexample.  At the same N = 90 input the claim's length formula
with exact-floor quotas predicts min(63,63) + min(18,18) + min(9,9) = 90
listings, but the program outputs 89. -/
theorem tier_mix_shortfall_counterexample :
    (mixJobsByTier 0 sample90).length = 89 ∧
    min (7 * sample90.length / 10) (tierJobs 1 sample90).length
      + min (2 * sample90.length / 10) (tierJobs 2 sample90).length
      + min (sample90.length / 10) (tierJobs 3 sample90).length = 90 ∧
    (89 : Nat) ≠ 90 := by
  refine ⟨by decide, by decide, by decide⟩

/-- C5.  Two-phase final ordering: the mixer's output is exactly the
24-hour-recent part of the mixed set followed by the older part; the recent
part is a permutation of the recent listings sorted descending by
`posted_at`, and the older part is the order-preserving filter of the mixed
(tier-grouped) set. -/
theorem two_phase_final_ordering (now : Int) (jobs : List JobListing) :
    mixJobsByTier now jobs =
      sortByPostedDesc ((mixPhase jobs).filter (fun j => recentCutoff now < j.posted_at))
        ++ (mixPhase jobs).filter (fun j => j.posted_at ≤ recentCutoff now) ∧
    List.Perm
      (sortByPostedDesc ((mixPhase jobs).filter (fun j => recentCutoff now < j.posted_at)))
      ((mixPhase jobs).filter (fun j => recentCutoff now < j.posted_at)) ∧
    List.Sorted postedGE
      (sortByPostedDesc ((mixPhase jobs).filter (fun j => recentCutoff now < j.posted_at))) :=
  ⟨rfl, List.perm_insertionSort postedGE _, List.sorted_insertionSort postedGE _⟩

/-! ### HTML stripping (`stripHtml`, scrape-jobs/index.ts lines 236-238)

`html.replace(/<[^>]*>/g, ' ').replace(/\s+/g, ' ').trim()`:
each complete `<...>` tag becomes one space (a `<` never followed by `>` is
literal text), maximal whitespace runs collapse to one space, and leading and
trailing whitespace is removed. -/

/-- JS `\s` on the ASCII range (space, tab, line feed, vertical tab, form
feed, carriage return). -/
def isJsWhitespace (c : Char) : Bool :=
  c == ' ' || c == '\t' || c == '\n' || c == '\x0b' || c == '\x0c' || c == '\r'

/-- Scanner for the global replace of `<[^>]*>` by a space.  `pending = some acc`
means the scanner sits inside a potential tag opened by `<`, with `acc` the
characters read since (reversed).  A tag closed by `>` becomes one space; an
unterminated `<...` is flushed back literally, which matches the regex because
no `>` remains in the input at that point. -/
def stripTagsAux : List Char → Option (List Char) → List Char
  | [], none => []
  | [], some acc => '<' :: acc.reverse
  | c :: rest, none =>
    if c = '<' then stripTagsAux rest (some [])
    else c :: stripTagsAux rest none
  | c :: rest, some acc =>
    if c = '>' then ' ' :: stripTagsAux rest none
    else stripTagsAux rest (some (c :: acc))

/-- `html.replace(/<[^>]*>/g, ' ')` on a character list. -/
def stripTags (l : List Char) : List Char :=
  stripTagsAux l none

/-- `.replace(/\s+/g, ' ')`: collapse each maximal whitespace run to a single
space. -/
def collapseWs : List Char → List Char
  | [] => []
  | [c] => [if isJsWhitespace c then ' ' else c]
  | c :: d :: rest =>
    if isJsWhitespace c && isJsWhitespace d then collapseWs (d :: rest)
    else (if isJsWhitespace c then ' ' else c) :: collapseWs (d :: rest)

/-- `.trim()`: drop whitespace from both ends. -/
def trimChars (l : List Char) : List Char :=
  ((l.dropWhile isJsWhitespace).reverse.dropWhile isJsWhitespace).reverse

/-- `stripHtml` on a character list. -/
def stripHtmlChars (l : List Char) : List Char :=
  trimChars (collapseWs (stripTags l))

/-- `stripHtml(html)`. -/
def stripHtml (html : String) : String :=
  String.mk (stripHtmlChars html.toList)

/-! ### Source clients (`fetchGreenhouseJobs` lines 135-183 and
`fetchWorkableJobs` lines 186-233)

The outbound `fetch` is modelled by an explicit outcome: a timeout, a network
error, or an HTTP response carrying a status and a parsed body. -/

/-- Outcome of one outbound request. -/
inductive FetchOutcome (β : Type) where
  | timeout : FetchOutcome β
  | networkError : FetchOutcome β
  | response (status : Nat) (body : β) : FetchOutcome β
  deriving DecidableEq

/-- A failed request: timeout, network error, or a non-2xx status
(`response.ok` is status 200-299). -/
def FetchOutcome.failed {β : Type} : FetchOutcome β → Bool
  | .timeout => true
  | .networkError => true
  | .response status _ => status < 200 || 300 ≤ status

/-- JS `a || b` on an optional string: an absent or empty string falls back. -/
def orTruthy (a : Option String) (b : String) : String :=
  match a with
  | some s => if s = "" then b else s
  | none => b

/-- The fixed technology vocabulary of `extractRequirements`
(scrape-jobs/index.ts lines 257-271). -/
def techKeywords : List String :=
  ["Python", "Java", "TypeScript", "JavaScript", "React", "Node.js", "AWS", "GCP", "Azure",
   "Kubernetes", "Docker", "PostgreSQL", "MongoDB", "Redis", "Kafka", "GraphQL",
   "Machine Learning", "Deep Learning", "TensorFlow", "PyTorch", "Go", "Rust", "C++",
   "SQL", "NoSQL", "REST API", "Microservices", "CI/CD", "Terraform", "Linux",
   "Spark", "Airflow", "dbt", "Snowflake", "BigQuery", "Databricks", "MLOps"]

/-- `extractRequirements`: the vocabulary keywords found case-insensitively in
the content, in vocabulary order, capped at 8. -/
def extractRequirements (content : String) : List String :=
  (techKeywords.filter fun kw => strIncludes (toLowerStr content) (toLowerStr kw)).take 8

structure GreenhouseCompany where
  name : String
  token : String
  tier : Nat
  deriving DecidableEq

/-- One entry of the Greenhouse `jobs` array, with `Option` for absent or
falsy fields. -/
structure RawGreenhouseJob where
  id : Nat
  title : Option String
  locationName : Option String
  absolute_url : Option String
  updated_at : Option Int
  content : Option String
  deriving DecidableEq

structure GreenhouseBody where
  jobs : List RawGreenhouseJob
  deriving DecidableEq

/-- The mapping of one raw Greenhouse job to a `JobListing`
(scrape-jobs/index.ts lines 155-175). -/
def normalizeGreenhouseJob (now : Int) (c : GreenhouseCompany) (job : RawGreenhouseJob) :
    JobListing :=
  let locationName := orTruthy job.locationName "Remote"
  let directUrl := orTruthy job.absolute_url
    ("https://boards.greenhouse.io/" ++ c.token ++ "/jobs/" ++ toString job.id)
  let postedAt := job.updated_at.getD now
  let content := job.content.getD ""
  { id := "gh_" ++ c.token ++ "_" ++ toString job.id
    title := orTruthy job.title "Unknown Position"
    company := c.name
    company_tier := c.tier
    location := locationName
    salary_range := none
    url := directUrl
    posted_delta := getTimeDelta now postedAt
    posted_at := postedAt
    snippet := if content = "" then "" else String.mk ((stripHtmlChars content.toList).take 300)
    requirements := extractRequirements content
    source := "greenhouse"
    match_score := 0 }

/-- `fetchGreenhouseJobs`: empty list on any failure, else up to 50 normalized
entries of the body's `jobs` array. -/
def fetchGreenhouseJobs (now : Int) (c : GreenhouseCompany)
    (outcome : FetchOutcome GreenhouseBody) : List JobListing :=
  match outcome with
  | .timeout => []
  | .networkError => []
  | .response status body =>
    if status < 200 || 300 ≤ status then []
    else (body.jobs.take 50).map (normalizeGreenhouseJob now c)

structure WorkableCompany where
  name : String
  subdomain : String
  tier : Nat
  deriving DecidableEq

/-- One entry of the Workable `results` array. -/
structure RawWorkableJob where
  shortcode : String
  title : Option String
  city : Option String
  country : Option String
  published : Option Int
  description : Option String
  deriving DecidableEq

structure WorkableBody where
  results : List RawWorkableJob
  deriving DecidableEq

/-- The mapping of one raw Workable job to a `JobListing`
(scrape-jobs/index.ts lines 206-225).  Note the snippet: the raw
`job.description || ''`, with no HTML stripping and no length cap. -/
def normalizeWorkableJob (now : Int) (c : WorkableCompany) (job : RawWorkableJob) :
    JobListing :=
  let directUrl := "https://apply.workable.com/" ++ c.subdomain ++ "/j/" ++ job.shortcode ++ "/"
  let postedAt := job.published.getD now
  { id := "wk_" ++ c.subdomain ++ "_" ++ job.shortcode
    title := orTruthy job.title "Unknown Position"
    company := c.name
    company_tier := c.tier
    location := orTruthy job.city (orTruthy job.country "Remote")
    salary_range := none
    url := directUrl
    posted_delta := getTimeDelta now postedAt
    posted_at := postedAt
    snippet := (job.description).getD ""
    requirements := extractRequirements ((job.description).getD "")
    source := "workable"
    match_score := 0 }

/-- `fetchWorkableJobs`: empty list on any failure, else up to 30 normalized
entries of the body's `results` array. -/
def fetchWorkableJobs (now : Int) (c : WorkableCompany)
    (outcome : FetchOutcome WorkableBody) : List JobListing :=
  match outcome with
  | .timeout => []
  | .networkError => []
  | .response status body =>
    if status < 200 || 300 ≤ status then []
    else (body.results.take 30).map (normalizeWorkableJob now c)

/-! ### Properties of the collapse/trim pipeline, for the snippet claim -/

/-- Of two adjacent characters, at least one is not whitespace. -/
def wsOK (a b : Char) : Prop := isJsWhitespace a = false ∨ isJsWhitespace b = false

theorem collapseWs_head_not_ws (d : Char) (rest : List Char)
    (hd : isJsWhitespace d = false) : (collapseWs (d :: rest)).head? = some d := by
  cases rest with
  | nil => simp [collapseWs, hd]
  | cons e rest' => simp [collapseWs, hd]

theorem collapseWs_chain : ∀ l : List Char, List.Chain' wsOK (collapseWs l)
  | [] => by simp [collapseWs]
  | [c] => by
    rw [show collapseWs [c] = [if isJsWhitespace c then ' ' else c] from rfl]
    exact List.chain'_singleton _
  | c :: d :: rest => by
    have ih := collapseWs_chain (d :: rest)
    cases hc : isJsWhitespace c with
    | true =>
      cases hd : isJsWhitespace d with
      | true => simpa [collapseWs, hc, hd] using ih
      | false =>
        have hstep : collapseWs (c :: d :: rest) = ' ' :: collapseWs (d :: rest) := by
          simp [collapseWs, hc, hd]
        rw [hstep, List.chain'_cons']
        refine ⟨?_, ih⟩
        intro y hy
        rw [collapseWs_head_not_ws d rest hd] at hy
        cases hy
        exact Or.inr hd
    | false =>
      have hstep : collapseWs (c :: d :: rest) =
          c :: collapseWs (d :: rest) := by
        simp [collapseWs, hc]
      rw [hstep, List.chain'_cons']
      exact ⟨fun y _ => Or.inl hc, ih⟩

theorem head_dropWhile_not_ws : ∀ (l : List Char) (c : Char),
    (l.dropWhile isJsWhitespace).head? = some c → isJsWhitespace c = false
  | [], c => by simp
  | a :: rest, c => by
    cases ha : isJsWhitespace a with
    | true =>
      rw [List.dropWhile_cons_of_pos ha]
      exact head_dropWhile_not_ws rest c
    | false =>
      rw [List.dropWhile_cons_of_neg (by simp [ha])]
      intro hc
      cases hc
      exact ha

theorem chain_wsOK_reverse {l : List Char} (h : List.Chain' wsOK l) :
    List.Chain' wsOK l.reverse := by
  rw [List.chain'_reverse]
  exact h.imp fun _ _ hab => hab.symm

theorem trimChars_chain {l : List Char} (h : List.Chain' wsOK l) :
    List.Chain' wsOK (trimChars l) := by
  rw [trimChars]
  exact chain_wsOK_reverse
    (((chain_wsOK_reverse (h.suffix (List.dropWhile_suffix _))).suffix
      (List.dropWhile_suffix _)))

theorem trimChars_front_of_dropWhile (l : List Char) :
    List.IsPrefix (trimChars l) (l.dropWhile isJsWhitespace) := by
  rw [trimChars]
  have h := List.dropWhile_suffix (l := (l.dropWhile isJsWhitespace).reverse) isJsWhitespace
  have h2 := h.reverse
  simpa using h2

theorem trimChars_head {l : List Char} {c : Char}
    (hc : (trimChars l).head? = some c) : isJsWhitespace c = false := by
  obtain ⟨t, ht⟩ := trimChars_front_of_dropWhile l
  apply head_dropWhile_not_ws l c
  rw [← ht, List.head?_append, hc]
  rfl

theorem head?_take_pos {α : Type} {n : Nat} (hn : n ≠ 0) (l : List α) :
    (l.take n).head? = l.head? := by
  cases l with
  | nil => simp
  | cons a rest =>
    cases n with
    | zero => exact absurd rfl hn
    | succ m => simp

theorem stripHtmlChars_chain (l : List Char) : List.Chain' wsOK (stripHtmlChars l) :=
  trimChars_chain (collapseWs_chain (stripTags l))

/-- C6 counterexample.  A Workable posting whose description carries HTML
markup is copied into `snippet` verbatim: the snippet is not the
HTML-stripped excerpt the claim asserts for both source clients. -/
def wkRawHtml : RawWorkableJob :=
  { shortcode := "abc"
    title := some "Engineer"
    city := none
    country := none
    published := some 0
    description := some "<b>Senior</b> engineer" }

theorem snippet_not_stripped_counterexample :
    (normalizeWorkableJob 0 ⟨"Revolut", "revolut", 3⟩ wkRawHtml).snippet
      = "<b>Senior</b> engineer" ∧
    stripHtml "<b>Senior</b> engineer" = "Senior engineer" ∧
    (normalizeWorkableJob 0 ⟨"Revolut", "revolut", 3⟩ wkRawHtml).snippet
      ≠ stripHtml "<b>Senior</b> engineer" :=
  ⟨rfl, by decide, by decide⟩

/-- C6 amended.  Only the Greenhouse-style client normalizes the snippet: its
snippet is capped at 300 characters, has no two adjacent whitespace
characters and does not start with whitespace; the Workable-style client
copies the raw description into `snippet` verbatim (no HTML stripping, no
whitespace collapsing, no length cap). -/
theorem snippet_normalization_amended :
    (∀ (now : Int) (c : WorkableCompany) (raw : RawWorkableJob),
      (normalizeWorkableJob now c raw).snippet = raw.description.getD "") ∧
    (∀ (now : Int) (c : GreenhouseCompany) (outcome : FetchOutcome GreenhouseBody),
      ∀ j ∈ fetchGreenhouseJobs now c outcome,
        j.snippet.length ≤ 300 ∧
        List.Chain' wsOK j.snippet.toList ∧
        (∀ ch, j.snippet.toList.head? = some ch → isJsWhitespace ch = false)) := by
  constructor
  · intro now c raw
    rfl
  · intro now c outcome j hj
    cases outcome with
    | timeout => simp [fetchGreenhouseJobs] at hj
    | networkError => simp [fetchGreenhouseJobs] at hj
    | response status body =>
      rw [fetchGreenhouseJobs] at hj
      by_cases hst : (decide (status < 200) || decide (300 ≤ status)) = true
      · rw [if_pos hst] at hj
        simp at hj
      · rw [if_neg hst] at hj
        obtain ⟨raw, _, rfl⟩ := List.mem_map.1 hj
        by_cases hco : raw.content.getD "" = ""
        · have hsnip : (normalizeGreenhouseJob now c raw).snippet = "" := by
            simp [normalizeGreenhouseJob, hco]
          rw [hsnip]
          refine ⟨by simp, by simp, ?_⟩
          intro ch hch
          simp at hch
        · have hsnip : (normalizeGreenhouseJob now c raw).snippet =
              String.mk ((stripHtmlChars (raw.content.getD "").toList).take 300) := by
            simp [normalizeGreenhouseJob, hco]
          rw [hsnip]
          refine ⟨?_, ?_, ?_⟩
          · show ((stripHtmlChars (raw.content.getD "").toList).take 300).length ≤ 300
            exact List.length_take_le 300 _
          · show List.Chain' wsOK ((stripHtmlChars (raw.content.getD "").toList).take 300)
            exact (stripHtmlChars_chain _).take 300
          · intro ch hch
            have hch' : (stripHtmlChars (raw.content.getD "").toList).head? = some ch := by
              rw [← head?_take_pos (by norm_num : (300:Nat) ≠ 0)
                (stripHtmlChars (raw.content.getD "").toList)]
              exact hch
            exact trimChars_head hch'

/-- C6 amended witness.  The amended theorem applied to a concrete Greenhouse
response carrying HTML content, and to the concrete Workable posting. -/
def ghRawHtml : RawGreenhouseJob :=
  { id := 7
    title := some "ML Engineer"
    locationName := some "Dublin"
    absolute_url := some "https://boards.greenhouse.io/stripe/jobs/7"
    updated_at := some 0
    content := some "<p>Build   things</p>" }

theorem snippet_normalization_amended_witness :
    ((normalizeGreenhouseJob 0 ⟨"Stripe", "stripe", 1⟩ ghRawHtml).snippet.length ≤ 300 ∧
     List.Chain' wsOK (normalizeGreenhouseJob 0 ⟨"Stripe", "stripe", 1⟩ ghRawHtml).snippet.toList ∧
     (∀ ch, (normalizeGreenhouseJob 0 ⟨"Stripe", "stripe", 1⟩ ghRawHtml).snippet.toList.head?
        = some ch → isJsWhitespace ch = false)) ∧
    (normalizeWorkableJob 0 ⟨"Revolut", "revolut", 3⟩ wkRawHtml).snippet
      = wkRawHtml.description.getD "" :=
  ⟨snippet_normalization_amended.2 0 ⟨"Stripe", "stripe", 1⟩
      (FetchOutcome.response 200 ⟨[ghRawHtml]⟩) _ (by simp [fetchGreenhouseJobs]),
   snippet_normalization_amended.1 0 ⟨"Revolut", "revolut", 3⟩ wkRawHtml⟩

/-! ### The aggregation loop (scrape-jobs/index.ts lines 391-404)

`Promise.allSettled` over batches of 10: every settled result is inspected;
fulfilled values are appended in order, rejections are skipped.  A settled
result is modelled as `Except Unit (List JobListing)`. -/

/-- One settled source promise. -/
abbrev SettledResult : Type := Except Unit (List JobListing)

/-- `if (result.status === 'fulfilled') allJobs.push(...result.value)`. -/
def settleStep (acc : List JobListing) (r : SettledResult) : List JobListing :=
  match r with
  | .ok v => acc ++ v
  | .error _ => acc

/-- `slice(i, i + batchSize)` chunking, driven by an explicit fuel so that it
is structurally recursive (fuel `l.length` always suffices). -/
def chunksOfFuel {α : Type} (k : Nat) : Nat → List α → List (List α)
  | 0, _ => []
  | _, [] => []
  | fuel + 1, a :: l => (a :: l).take k :: chunksOfFuel k fuel ((a :: l).drop k)

/-- The batches `allPromises.slice(i, i + batchSize)` for `i = 0, k, 2k, ...`. -/
def chunksOf {α : Type} (k : Nat) (l : List α) : List (List α) :=
  chunksOfFuel k l.length l

/-- The nested aggregation loop: fold the batches of 10 settled results,
appending each batch's fulfilled values onto the accumulator. -/
def runBatches (results : List SettledResult) : List JobListing :=
  (chunksOf 10 results).foldl (fun acc batch => batch.foldl settleStep acc) []

theorem foldl_settleStep (l : List SettledResult) :
    ∀ acc : List JobListing,
      l.foldl settleStep acc = acc ++ (l.filterMap Except.toOption).flatten := by
  induction l with
  | nil => intro acc; simp
  | cons r rest ih =>
    intro acc
    cases r with
    | ok v =>
      simp [settleStep, ih, List.filterMap_cons, Except.toOption, List.flatten_cons]
    | error e =>
      simp [settleStep, ih, List.filterMap_cons, Except.toOption]

theorem flatten_chunksOfFuel {α : Type} (k : Nat) (hk : 0 < k) :
    ∀ (fuel : Nat) (l : List α), l.length ≤ fuel → (chunksOfFuel k fuel l).flatten = l := by
  intro fuel
  induction fuel with
  | zero =>
    intro l hl
    cases l with
    | nil => rfl
    | cons a l => simp at hl
  | succ n ih =>
    intro l hl
    cases l with
    | nil => rfl
    | cons a l =>
      simp only [chunksOfFuel, List.flatten_cons]
      rw [ih ((a :: l).drop k) ?hlen]
      · exact List.take_append_drop k (a :: l)
      · simp only [List.length_drop, List.length_cons]
        simp only [List.length_cons] at hl
        omega

theorem foldl_batches (batches : List (List SettledResult)) :
    ∀ acc : List JobListing,
      batches.foldl (fun a b => b.foldl settleStep a) acc
        = (batches.flatten).foldl settleStep acc := by
  induction batches with
  | nil => intro acc; rfl
  | cons b bs ih =>
    intro acc
    simp only [List.foldl_cons, List.flatten_cons, List.foldl_append]
    exact ih _

theorem runBatches_eq (results : List SettledResult) :
    runBatches results = (results.filterMap Except.toOption).flatten := by
  rw [runBatches, foldl_batches, chunksOf,
    flatten_chunksOfFuel 10 (by norm_num) results.length results (le_refl _),
    foldl_settleStep]
  simp

/-- C7.  Source-failure isolation: a timed-out, errored or non-2xx fetch
yields the empty list from either source client (the failure never escapes),
and the aggregation loop returns exactly the concatenation of the fulfilled
sources' listings, in order, regardless of how many sources failed. -/
theorem source_failure_isolation :
    (∀ (now : Int) (c : GreenhouseCompany) (outcome : FetchOutcome GreenhouseBody),
      outcome.failed = true → fetchGreenhouseJobs now c outcome = []) ∧
    (∀ (now : Int) (c : WorkableCompany) (outcome : FetchOutcome WorkableBody),
      outcome.failed = true → fetchWorkableJobs now c outcome = []) ∧
    (∀ results : List SettledResult,
      runBatches results = (results.filterMap Except.toOption).flatten) := by
  refine ⟨?_, ?_, runBatches_eq⟩
  · intro now c outcome hfail
    cases outcome with
    | timeout => rfl
    | networkError => rfl
    | response status body =>
      simp only [FetchOutcome.failed] at hfail
      rw [fetchGreenhouseJobs, if_pos hfail]
  · intro now c outcome hfail
    cases outcome with
    | timeout => rfl
    | networkError => rfl
    | response status body =>
      simp only [FetchOutcome.failed] at hfail
      rw [fetchWorkableJobs, if_pos hfail]

/-- Five settled sources: the second and fourth rejected, the rest fulfilled. -/
def fiveResults : List SettledResult :=
  [Except.ok [mkJob "u1" 1 0 0], Except.error (), Except.ok [mkJob "u2" 2 0 0],
   Except.error (), Except.ok [mkJob "u3" 3 0 0]]

/-- C7 witness.  A timed-out Greenhouse fetch and a 500-status Workable fetch
both return the empty list, and the aggregation of five sources of which two
reject returns exactly the three fulfilled results' union. -/
theorem source_failure_isolation_witness :
    ((FetchOutcome.timeout : FetchOutcome GreenhouseBody).failed = true ∧
     fetchGreenhouseJobs 0 ⟨"Stripe", "stripe", 1⟩ FetchOutcome.timeout = []) ∧
    ((FetchOutcome.response 500 (⟨[]⟩ : WorkableBody)).failed = true ∧
     fetchWorkableJobs 0 ⟨"Revolut", "revolut", 3⟩ (FetchOutcome.response 500 ⟨[]⟩) = []) ∧
    runBatches fiveResults = [mkJob "u1" 1 0 0, mkJob "u2" 2 0 0, mkJob "u3" 3 0 0] := by
  refine ⟨⟨rfl, ?_⟩, ⟨by decide, ?_⟩, ?_⟩
  · exact source_failure_isolation.1 0 ⟨"Stripe", "stripe", 1⟩ FetchOutcome.timeout rfl
  · exact source_failure_isolation.2.1 0 ⟨"Revolut", "revolut", 3⟩
      (FetchOutcome.response 500 ⟨[]⟩) (by decide)
  · rw [source_failure_isolation.2.2 fiveResults]
    rfl

/-! ### Conditional fetch in the feed service (live-jobs-feed/index.ts lines 125-141)

The freshness token is `'"' + btoa(lastModified + '-' + count) + '"'`; a
request whose If-None-Match header equals it gets a bodyless 304.  (The
separate If-Modified-Since branch is not involved in the token claim and is
not modelled.) -/

/-- The base64 alphabet. -/
def b64Alphabet : List Char :=
  "ABCDEFGHIJKLMNOPQRSTUVWXYZabcdefghijklmnopqrstuvwxyz0123456789+/".toList

def b64Char (i : Nat) : Char := b64Alphabet.getD i '?'

/-- Base64 of a byte list, with `=` padding, as `btoa` computes it. -/
def btoaBytes : List Nat → List Char
  | [] => []
  | [a] => [b64Char (a / 4), b64Char (a % 4 * 16), '=', '=']
  | [a, b] => [b64Char (a / 4), b64Char (a % 4 * 16 + b / 16), b64Char (b % 16 * 4), '=']
  | a :: b :: c :: rest =>
    b64Char (a / 4) :: b64Char (a % 4 * 16 + b / 16) :: b64Char (b % 16 * 4 + c / 64)
      :: b64Char (c % 64) :: btoaBytes rest

/-- `btoa` on a latin-1 string. -/
def btoa (s : String) : String :=
  String.mk (btoaBytes (s.toList.map Char.toNat))

/-- The ETag: `'"' + btoa(lastModified + '-' + (count || 0)) + '"'`. -/
def computeEtag (lastModified : String) (count : Nat) : String :=
  "\"" ++ btoa (lastModified ++ "-" ++ toString count) ++ "\""

/-- What the feed's ETag depends on: the newest listing's timestamp string and
the total count of the query. -/
structure FeedSnapshot where
  lastModified : String
  count : Nat
  deriving DecidableEq

structure FeedResponse where
  status : Nat
  etagHeader : String
  body : Option (List JobListing)
  deriving DecidableEq

/-- The conditional part of the feed handler: a matching If-None-Match token
short-circuits to a bodyless 304, otherwise the full payload is returned with
the current token. -/
def serveFeed (snapshot : FeedSnapshot) (ifNoneMatch : Option String)
    (payload : List JobListing) : FeedResponse :=
  let etag := computeEtag snapshot.lastModified snapshot.count
  if ifNoneMatch = some etag then
    { status := 304, etagHeader := etag, body := none }
  else
    { status := 200, etagHeader := etag, body := some payload }

/-- C8.  Conditional fetch: every response carries the token computed from
the snapshot; replaying that token against an unchanged snapshot yields a
bodyless 304; and a request without the current token gets a full 200
response with the payload as body. -/
theorem conditional_fetch (snapshot : FeedSnapshot) (payload : List JobListing)
    (prev : Option String) :
    (serveFeed snapshot prev payload).etagHeader
      = computeEtag snapshot.lastModified snapshot.count ∧
    (serveFeed snapshot (some ((serveFeed snapshot prev payload).etagHeader)) payload).status
      = 304 ∧
    (serveFeed snapshot (some ((serveFeed snapshot prev payload).etagHeader)) payload).body
      = none ∧
    (prev ≠ some (computeEtag snapshot.lastModified snapshot.count) →
      (serveFeed snapshot prev payload).status = 200 ∧
      (serveFeed snapshot prev payload).body = some payload) := by
  have hetag : (serveFeed snapshot prev payload).etagHeader
      = computeEtag snapshot.lastModified snapshot.count := by
    rw [serveFeed]
    by_cases h : prev = some (computeEtag snapshot.lastModified snapshot.count)
    · rw [if_pos h]
    · rw [if_neg h]
  refine ⟨hetag, ?_, ?_, ?_⟩
  · rw [hetag, serveFeed, if_pos rfl]
  · rw [hetag, serveFeed, if_pos rfl]
  · intro hne
    rw [serveFeed, if_neg hne]
    exact ⟨rfl, rfl⟩

/-- C8 witness.  Two consecutive queries against an unchanged snapshot: the
first (unconditional) query returns 200 with a body and the current token;
replaying the token returns a bodyless 304. -/
theorem conditional_fetch_witness :
    (serveFeed ⟨"2026-01-01T00:00:00Z", 3⟩ none []).status = 200 ∧
    (serveFeed ⟨"2026-01-01T00:00:00Z", 3⟩
      (some ((serveFeed ⟨"2026-01-01T00:00:00Z", 3⟩ none []).etagHeader)) []).status = 304 ∧
    (serveFeed ⟨"2026-01-01T00:00:00Z", 3⟩
      (some ((serveFeed ⟨"2026-01-01T00:00:00Z", 3⟩ none []).etagHeader)) []).body = none := by
  have h := conditional_fetch ⟨"2026-01-01T00:00:00Z", 3⟩ [] none
  exact ⟨(h.2.2.2 (by simp)).1, h.2.1, h.2.2.1⟩

end GithubConnectHub
